import Mathlib

/-!
A verification development for the `jax.random` PRNG engine.

The repository file `src/jax/random.py` documents and re-exports the
splittable counter-based PRNG engine that lives in `jax._src.random` /
`jax._src.prng`.  The engine itself is not part of the repository snapshot,
so the definitions below model it from the specification: the default
implementation is the Threefry-2x32 counter PRNG (20 rounds, subkey
injection every 4 rounds, the published rotation constants), keys are
immutable pairs of 32-bit words tagged with an implementation name, and
`split` / `fold_in` / `random_bits` drive the hash core with disjoint
counter encodings.  All word arithmetic is `Nat` reduced modulo `2^32`.
-/

namespace JaxRandom

/-- The 32-bit word modulus. -/
def two32 : Nat := 4294967296

/-- Modelled from the spec: `rotate_left` of `jax._src.prng` (not under
`src/`) — a 32-bit rotation written, as in the source, as
`x << d | x >> (32 - d)` with silent wraparound of the left shift. -/
def rotate_left (x d : Nat) : Nat :=
  ((x <<< d) % two32) ||| (x >>> (32 - d))

/-- The inverse rotation. -/
def rotate_right (x d : Nat) : Nat := rotate_left x (32 - d)

/-- A pair of 32-bit words (the state block of the hash core). -/
def inWords (v : Nat × Nat) : Prop := v.1 < two32 ∧ v.2 < two32

instance (v : Nat × Nat) : Decidable (inWords v) := by
  unfold inWords; infer_instance

/-- Modelled from the spec: one Threefry mix round of `jax._src.prng`
(`apply_round`): `v0 += v1; v1 = rotate_left(v1, rot); v1 ^= v0`. -/
def apply_round (v : Nat × Nat) (rot : Nat) : Nat × Nat :=
  ((v.1 + v.2) % two32, ((v.1 + v.2) % two32) ^^^ rotate_left v.2 rot)

/-- The inverse of one mix round. -/
def apply_round_inv (w : Nat × Nat) (rot : Nat) : Nat × Nat :=
  ((w.1 + (two32 - rotate_right (w.1 ^^^ w.2) rot)) % two32,
    rotate_right (w.1 ^^^ w.2) rot)

/-- Modelled from the spec: subkey injection between round groups —
modular addition of the scheduled subkeys into both words. -/
def inject (v : Nat × Nat) (a b : Nat) : Nat × Nat :=
  ((v.1 + a) % two32, (v.2 + b) % two32)

/-- The inverse of a subkey injection. -/
def inject_inv (w : Nat × Nat) (a b : Nat) : Nat × Nat :=
  ((w.1 + (two32 - a % two32)) % two32, (w.2 + (two32 - b % two32)) % two32)

/-- A group of mix rounds, applied left to right. -/
def apply_rounds (v : Nat × Nat) (rots : List Nat) : Nat × Nat :=
  rots.foldl apply_round v

/-- The inverse of a round group. -/
def apply_rounds_inv (w : Nat × Nat) (rots : List Nat) : Nat × Nat :=
  rots.foldr (fun r u => apply_round_inv u r) w

/-- Rotation amounts usable by the mix round. -/
def validRots (rots : List Nat) : Prop := ∀ r ∈ rots, 0 < r ∧ r < 32

instance (rots : List Nat) : Decidable (validRots rots) := by
  unfold validRots; infer_instance

/-- First rotation-constant group of Threefry-2x32. -/
def rotationsA : List Nat := [13, 15, 26, 6]

/-- Second rotation-constant group of Threefry-2x32. -/
def rotationsB : List Nat := [17, 29, 16, 24]

/-- The third scheduled subkey: `k1 ^ k2 ^ 0x1BD11BDA`. -/
def ks2 (k : Nat × Nat) : Nat := k.1 ^^^ k.2 ^^^ 0x1BD11BDA

/-- Modelled from the spec: the Threefry-2x32 block hash of
`jax._src.prng.threefry2x32` (not under `src/`), unrolled — 20 mix
rounds in five groups of four, with the rotating subkey schedule
injected before the first group and after each group. -/
def threefry2x32 (k x : Nat × Nat) : Nat × Nat :=
  inject (apply_rounds (inject (apply_rounds (inject (apply_rounds (inject
    (apply_rounds (inject (apply_rounds (inject x k.1 k.2) rotationsA)
        k.2 (ks2 k + 1)) rotationsB)
      (ks2 k) (k.1 + 2)) rotationsA)
    k.1 (k.2 + 3)) rotationsB)
    k.2 (ks2 k + 4)) rotationsA)
    (ks2 k) (k.1 + 5)

/-- The inverse of the Threefry-2x32 block for a fixed key. -/
def threefry2x32_inv (k w : Nat × Nat) : Nat × Nat :=
  inject_inv (apply_rounds_inv (inject_inv (apply_rounds_inv (inject_inv
    (apply_rounds_inv (inject_inv (apply_rounds_inv (inject_inv
      (apply_rounds_inv (inject_inv w (ks2 k) (k.1 + 5)) rotationsA)
        k.2 (ks2 k + 4)) rotationsB)
      k.1 (k.2 + 3)) rotationsA)
    (ks2 k) (k.1 + 2)) rotationsB)
    k.2 (ks2 k + 1)) rotationsA)
    k.1 k.2

/-- Modelled from the spec: `jax._src.prng.threefry_seed` (not under
`src/`) — a 64-bit seed becomes the key pair
`(seed >> 32, seed & 0xFFFFFFFF)`, each truncated to 32 bits. -/
def threefry_seed (seed : Nat) : Nat × Nat :=
  ((seed >>> 32) % two32, seed % two32)

/-- Modelled from the spec: element `i` of `split(key, n)` — the hash
core driven by the split counter, keyed on `key`.  The counter words
are `(i, n + i)`, matching the iota-halves counter layout that the
engine feeds to the block hash; this tag domain is disjoint from the
`fold_in` domain below. -/
def threefry_split_at (k : Nat × Nat) (n i : Nat) : Nat × Nat :=
  threefry2x32 k (i, n + i)

/-- Modelled from the spec: `split(key, n)` — the array of `n` new keys,
element `i` a pure function of `(key, i)`. -/
def threefry_split (k : Nat × Nat) (n : Nat) : List (Nat × Nat) :=
  (List.range n).map (threefry_split_at k n)

/-- Modelled from the spec: `jax._src.prng.threefry_fold_in` (not under
`src/`) — the hash core applied to the seed-encoding of `data`, i.e.
counter words `(data >> 32, data & 0xFFFFFFFF)`. -/
def threefry_fold_in (k : Nat × Nat) (data : Nat) : Nat × Nat :=
  threefry2x32 k (threefry_seed data)

/-- Modelled from the spec: `split` over a batched key array — one
independent split per batch element, results stacked along a new
leading axis. -/
def threefry_split_batched (ks : List (Nat × Nat)) (n : Nat) :
    List (List (Nat × Nat)) :=
  ks.map (fun k => threefry_split k n)

/-- A shape-carrying unsigned-integer array (flat row-major data). -/
structure NdArray where
  shape : List Nat
  data : List Nat
deriving DecidableEq, Repr

/-- The row-major multi-index of flat position `c` in `shape`. -/
def unlinearize : List Nat → Nat → List Nat
  | [], _ => []
  | _ :: rest, c => c / rest.prod :: unlinearize rest (c % rest.prod)

/-- The row-major flat position of a multi-index in `shape`. -/
def linearize : List Nat → List Nat → Nat
  | _ :: rest, i :: is => i * rest.prod + linearize rest is
  | _, _ => 0

/-- Modelled from the spec: the hash-core output words for one element
of the `random_bits` output — the key is mixed with each index
coordinate of the element in turn (coordinates truncated to the 32-bit
counter word) and hashed once more.  The value depends only on the
key and the element's own coordinates, never on the shape extents:
this is the shard-invariant counter layout the default implementation
advertises. -/
def threefry_index_hash (k : Nat × Nat) (idx : List Nat) : Nat × Nat :=
  threefry2x32 (idx.foldl (fun kk i => threefry2x32 kk (i % two32, 0)) k) (0, 0)

/-- Modelled from the spec: the `bit_width`-sized element at a given
multi-index: for widths 8/16/32 the first hash word truncated to the
width, for width 64 the two 32-bit hash words concatenated. -/
def threefry_word_of_index (k : Nat × Nat) (w : Nat) (idx : List Nat) : Nat :=
  if w = 64 then (threefry_index_hash k idx).1 * two32 + (threefry_index_hash k idx).2
  else (threefry_index_hash k idx).1 % 2 ^ w

/-- Modelled from the spec: `random_bits(key, bit_width, shape)` — fills
`shape` by tiling hash-core outputs over the counter sequence
`0 .. prod(shape) - 1`, each counter hashed as its multi-index in
`shape` so that the output is shard-position-independent. -/
def threefry_random_bits (k : Nat × Nat) (w : Nat) (shape : List Nat) : NdArray :=
  ⟨shape, (List.range shape.prod).map (fun c => threefry_word_of_index k w (unlinearize shape c))⟩

/-- Modelled from the spec: the engine's error taxonomy. -/
inductive RandomError where
  | invalidSeed
  | invalidArgument
  | unsupportedWidth
  | keyImplementationMismatch
  | shapeMismatch
deriving DecidableEq, Repr

/-- Modelled from the spec: a typed key — an immutable value holding its
word data and tagged with the name of the implementation that produced
it. -/
structure Key where
  impl : String
  data : List Nat
deriving DecidableEq, Repr

/-- Modelled from the spec: an Implementation Descriptor — a named
bundle of the four core operations over a specific key-word layout,
with its documented shard-invariance capability flag. -/
structure Descriptor where
  name : String
  wordCount : Nat
  seedFn : Nat → List Nat
  splitFn : List Nat → Nat → List (List Nat)
  foldInFn : List Nat → Nat → List Nat
  bitsFn : List Nat → Nat → List Nat → NdArray
  shardInvariant : Bool

/-- Read a key-word pair out of a stored word list. -/
def pairOfWords (ws : List Nat) : Nat × Nat := (ws.getD 0 0, ws.getD 1 0)

/-- The word list of a key-word pair. -/
def wordsOfPair (p : Nat × Nat) : List Nat := [p.1, p.2]

/-- Modelled from the spec: the default `"threefry2x32"` Descriptor. -/
def threefryDescriptor : Descriptor where
  name := "threefry2x32"
  wordCount := 2
  seedFn := fun s => wordsOfPair (threefry_seed s)
  splitFn := fun ws n => (threefry_split (pairOfWords ws) n).map wordsOfPair
  foldInFn := fun ws d => wordsOfPair (threefry_fold_in (pairOfWords ws) d)
  bitsFn := fun ws w shape => threefry_random_bits (pairOfWords ws) w shape
  shardInvariant := true

/-- Modelled from the spec: dispatch of `split` — the key's tag must
match the Descriptor being dispatched, and the count must be positive;
on any error no output keys are produced. -/
def split_op (d : Descriptor) (k : Key) (n : Nat) : Except RandomError (List Key) :=
  if k.impl ≠ d.name then .error .keyImplementationMismatch
  else if n = 0 then .error .invalidArgument
  else .ok ((d.splitFn k.data n).map (fun ws => ⟨d.name, ws⟩))

/-- Modelled from the spec: dispatch of `fold_in`. -/
def fold_in_op (d : Descriptor) (k : Key) (data : Nat) : Except RandomError Key :=
  if k.impl ≠ d.name then .error .keyImplementationMismatch
  else .ok ⟨d.name, d.foldInFn k.data data⟩

/-- Modelled from the spec: dispatch of `random_bits` — tag check first,
then the supported-width check. -/
def random_bits_op (d : Descriptor) (k : Key) (w : Nat) (shape : List Nat) :
    Except RandomError NdArray :=
  if k.impl ≠ d.name then .error .keyImplementationMismatch
  else if w = 8 ∨ w = 16 ∨ w = 32 ∨ w = 64 then .ok (d.bitsFn k.data w shape)
  else .error .unsupportedWidth

/-- `key_data` as re-exported by `src/jax/random.py`: the key's
underlying words as a plain array.  Keys and arrays are immutable
values here, so the result cannot alias mutable storage. -/
def key_data (k : Key) : List Nat := k.data

/-- `wrap_key_data` as re-exported by `src/jax/random.py`: rebuild a
typed key from raw words, failing with `ShapeMismatchError` when the
trailing dimension does not match the Descriptor's word count. -/
def wrap_key_data (d : Descriptor) (raw : List Nat) : Except RandomError Key :=
  if raw.length = d.wordCount then .ok ⟨d.name, raw⟩
  else .error .shapeMismatch

/-- An operation request against a store of existing keys: derive from
the key at index `i`. -/
inductive RandomOp where
  | opSplit (i n : Nat)
  | opFoldIn (i data : Nat)
deriving DecidableEq, Repr

/-- The keys a derivation operation produces from a store. -/
def opNewKeys (d : Descriptor) (store : List Key) : RandomOp → List Key
  | .opSplit i n =>
      match split_op d (store.getD i ⟨d.name, []⟩) n with
      | .ok ks => ks
      | .error _ => []
  | .opFoldIn i data =>
      match fold_in_op d (store.getD i ⟨d.name, []⟩) data with
      | .ok k => [k]
      | .error _ => []

/-- Modelled from the spec: the engine never mutates a key in place —
running an operation only appends freshly derived keys to the store of
live keys. -/
def applyOp (d : Descriptor) (store : List Key) (op : RandomOp) : List Key :=
  store ++ opNewKeys d store op

/-- Modelled from the spec: the deprecations table of
`src/jax/random.py` — attribute name, warning message, and the
`jax._src.random` symbol the deprecated attribute resolves to. -/
def deprecations_table : List (String × String × String) :=
  [("shuffle",
    "jax.random.shuffle is deprecated. Use jax.random.permutation with independent=True.",
    "shuffle")]

/-- The names bound directly on the `jax.random` module at runtime by
the `from jax._src.random import (...)` block, paired with the
`jax._src.random` symbol each binds. -/
def module_exports : List (String × String) :=
  [("PRNGKey", "PRNGKey"), ("ball", "ball"), ("bernoulli", "bernoulli"),
   ("binomial", "binomial"), ("beta", "beta"), ("bits", "bits"),
   ("categorical", "categorical"), ("cauchy", "cauchy"),
   ("chisquare", "chisquare"), ("choice", "choice"),
   ("dirichlet", "dirichlet"), ("double_sided_maxwell", "double_sided_maxwell"),
   ("exponential", "exponential"), ("f", "f"), ("fold_in", "fold_in"),
   ("gamma", "gamma"), ("generalized_normal", "generalized_normal"),
   ("geometric", "geometric"), ("gumbel", "gumbel"), ("key", "key"),
   ("key_data", "key_data"), ("key_impl", "key_impl"),
   ("laplace", "laplace"), ("logistic", "logistic"),
   ("loggamma", "loggamma"), ("lognormal", "lognormal"),
   ("maxwell", "maxwell"), ("multivariate_normal", "multivariate_normal"),
   ("normal", "normal"), ("orthogonal", "orthogonal"), ("pareto", "pareto"),
   ("permutation", "permutation"), ("poisson", "poisson"),
   ("rademacher", "rademacher"), ("randint", "randint"),
   ("random_gamma_p", "random_gamma_p"), ("rayleigh", "rayleigh"),
   ("_deprecated_shuffle", "shuffle"), ("split", "split"), ("t", "t"),
   ("triangular", "triangular"), ("truncated_normal", "truncated_normal"),
   ("uniform", "uniform"), ("wald", "wald"),
   ("weibull_min", "weibull_min"), ("wrap_key_data", "wrap_key_data")]

/-- A direct runtime attribute lookup on the module: the
`jax._src.random` symbol it binds, if the name is bound directly. -/
def runtime_attr (name : String) : Option String :=
  (module_exports.find? (fun e => e.1 == name)).map (fun e => e.2)

/-- Modelled from the spec: `jax._src.deprecations.deprecation_getattr`
(not under `src/`) — the module-level `__getattr__` built from the
deprecations table: for a registered name it emits the registered
warning message and returns the registered object; other names raise
`AttributeError` (here: `none`). -/
def module_getattr (name : String) : Option (String × String) :=
  (deprecations_table.find? (fun e => e.1 == name)).map (fun e => e.2)

/-- The module attributes under static type checking: the direct
exports plus `shuffle` bound directly to `jax._src.random.shuffle`. -/
def typing_attrs : List (String × String) :=
  module_exports ++ [("shuffle", "shuffle")]

/-- A static-type-checking attribute lookup. -/
def typing_attr (name : String) : Option String :=
  (typing_attrs.find? (fun e => e.1 == name)).map (fun e => e.2)

/-- Modelled from the spec: a key argument to a `jax.random` operation —
either a legacy `uint32` array (raw words, no implementation tag) or a
self-describing typed key. -/
inductive AnyKey where
  | legacy (raw : List Nat)
  | typed (k : Key)
deriving DecidableEq, Repr

/-- Modelled from the spec: resolution of the RNG implementation for a
key argument — a legacy key takes the process-wide configuration value
read at call time; a typed key is self-describing and uses its own tag. -/
def resolve_impl (defaultImpl : String) (k : AnyKey) : String :=
  match k with
  | .legacy _ => defaultImpl
  | .typed k => k.impl

/-! ## Theorems -/

theorem two32_eq : two32 = 2 ^ 32 := rfl

theorem two32_pos : 0 < two32 := by decide

/-- Arithmetic characterisation of `rotate_left` on in-range words. -/
theorem rotate_left_eq (x d : Nat) (hx : x < two32) (hd1 : 0 < d) (hd2 : d < 32) :
    rotate_left x d = 2 ^ d * (x % 2 ^ (32 - d)) + x / 2 ^ (32 - d) := by
  have hsplit : two32 = 2 ^ (32 - d) * 2 ^ d := by
    rw [← pow_add, two32_eq]
    congr 1
    omega
  have h1 : (x <<< d) % two32 = (x % 2 ^ (32 - d)) * 2 ^ d := by
    rw [Nat.shiftLeft_eq, hsplit, Nat.mul_mod_mul_right]
  have h2 : x >>> (32 - d) = x / 2 ^ (32 - d) := Nat.shiftRight_eq_div_pow x (32 - d)
  have hb : x / 2 ^ (32 - d) < 2 ^ d := by
    apply Nat.div_lt_of_lt_mul
    rw [← hsplit]
    exact hx
  rw [rotate_left, h1, h2, mul_comm (x % 2 ^ (32 - d)) (2 ^ d),
    ← Nat.mul_add_lt_is_or hb]

/-- `rotate_left` keeps words in range. -/
theorem rotate_left_lt (x d : Nat) (hx : x < two32) (hd1 : 0 < d) (hd2 : d < 32) :
    rotate_left x d < two32 := by
  rw [rotate_left_eq x d hx hd1 hd2]
  have hq : 0 < 2 ^ (32 - d) := Nat.pos_pow_of_pos _ (by decide)
  have hmod : x % 2 ^ (32 - d) < 2 ^ (32 - d) := Nat.mod_lt _ hq
  have hb : x / 2 ^ (32 - d) < 2 ^ d := by
    apply Nat.div_lt_of_lt_mul
    rw [mul_comm, ← pow_add]
    have hdd : d + (32 - d) = 32 := by omega
    rw [hdd, ← two32_eq]
    exact hx
  calc 2 ^ d * (x % 2 ^ (32 - d)) + x / 2 ^ (32 - d)
      < 2 ^ d * (x % 2 ^ (32 - d)) + 2 ^ d := by omega
    _ = 2 ^ d * (x % 2 ^ (32 - d) + 1) := by ring
    _ ≤ 2 ^ d * 2 ^ (32 - d) := Nat.mul_le_mul_left _ (by omega)
    _ = two32 := by
        rw [← pow_add, two32_eq]
        congr 1
        omega

/-- Rotating left by `d` then right by `d` is the identity on 32-bit words. -/
theorem rotate_right_rotate_left (x d : Nat) (hx : x < two32)
    (hd1 : 0 < d) (hd2 : d < 32) :
    rotate_right (rotate_left x d) d = x := by
  have hy : rotate_left x d < two32 := rotate_left_lt x d hx hd1 hd2
  rw [rotate_right, rotate_left_eq _ (32 - d) hy (by omega) (by omega),
    rotate_left_eq x d hx hd1 hd2]
  have hdd : 32 - (32 - d) = d := by omega
  rw [hdd]
  have hq : 0 < 2 ^ (32 - d) := Nat.pos_pow_of_pos _ (by decide)
  have hp : 0 < 2 ^ d := Nat.pos_pow_of_pos _ (by decide)
  have hb : x / 2 ^ (32 - d) < 2 ^ d := by
    apply Nat.div_lt_of_lt_mul
    rw [mul_comm, ← pow_add]
    have h32 : d + (32 - d) = 32 := by omega
    rw [h32, ← two32_eq]
    exact hx
  have hmod : (2 ^ d * (x % 2 ^ (32 - d)) + x / 2 ^ (32 - d)) % 2 ^ d
      = x / 2 ^ (32 - d) := by
    rw [Nat.mul_add_mod]
    exact Nat.mod_eq_of_lt hb
  have hdiv : (2 ^ d * (x % 2 ^ (32 - d)) + x / 2 ^ (32 - d)) / 2 ^ d
      = x % 2 ^ (32 - d) := by
    rw [Nat.mul_add_div hp, Nat.div_eq_of_lt hb, Nat.add_zero]
  rw [hmod, hdiv]
  exact Nat.div_add_mod x (2 ^ (32 - d))

theorem apply_round_mem (v : Nat × Nat) (rot : Nat) (hv : inWords v)
    (h1 : 0 < rot) (h2 : rot < 32) : inWords (apply_round v rot) := by
  obtain ⟨hv1, hv2⟩ := hv
  constructor
  · exact Nat.mod_lt _ two32_pos
  · rw [two32_eq]
    exact Nat.xor_lt_two_pow (by rw [← two32_eq]; exact Nat.mod_lt _ two32_pos)
      (by rw [← two32_eq]; exact rotate_left_lt v.2 rot hv2 h1 h2)

theorem apply_round_inv_eq (v : Nat × Nat) (rot : Nat) (hv : inWords v)
    (h1 : 0 < rot) (h2 : rot < 32) :
    apply_round_inv (apply_round v rot) rot = v := by
  obtain ⟨hv1, hv2⟩ := hv
  have hxor : ((v.1 + v.2) % two32) ^^^ (((v.1 + v.2) % two32) ^^^ rotate_left v.2 rot)
      = rotate_left v.2 rot := Nat.xor_cancel_left _ _
  have hrot : rotate_right (rotate_left v.2 rot) rot = v.2 :=
    rotate_right_rotate_left v.2 rot hv2 h1 h2
  unfold apply_round_inv apply_round
  simp only [hxor, hrot]
  have harith : ((v.1 + v.2) % two32 + (two32 - v.2)) % two32 = v.1 := by
    unfold two32 at *
    omega
  rw [harith]

theorem inject_mem (v : Nat × Nat) (a b : Nat) : inWords (inject v a b) :=
  ⟨Nat.mod_lt _ two32_pos, Nat.mod_lt _ two32_pos⟩

theorem inject_inv_eq (v : Nat × Nat) (a b : Nat) (hv : inWords v) :
    inject_inv (inject v a b) a b = v := by
  obtain ⟨hv1, hv2⟩ := hv
  unfold inject_inv inject
  have h1 : ((v.1 + a) % two32 + (two32 - a % two32)) % two32 = v.1 := by
    unfold two32 at *
    omega
  have h2 : ((v.2 + b) % two32 + (two32 - b % two32)) % two32 = v.2 := by
    unfold two32 at *
    omega
  rw [h1, h2]

theorem apply_rounds_mem (rots : List Nat) (v : Nat × Nat)
    (hr : validRots rots) (hv : inWords v) : inWords (apply_rounds v rots) := by
  induction rots generalizing v with
  | nil => exact hv
  | cons r rs ih =>
      have hr0 : 0 < r ∧ r < 32 := hr r (by simp)
      have hrs : validRots rs := fun s hs => hr s (by simp [hs])
      exact ih (apply_round v r) hrs (apply_round_mem v r hv hr0.1 hr0.2)

theorem apply_rounds_inv_eq (rots : List Nat) (v : Nat × Nat)
    (hr : validRots rots) (hv : inWords v) :
    apply_rounds_inv (apply_rounds v rots) rots = v := by
  induction rots generalizing v with
  | nil => rfl
  | cons r rs ih =>
      have hr0 : 0 < r ∧ r < 32 := hr r (by simp)
      have hrs : validRots rs := fun s hs => hr s (by simp [hs])
      have hstep : inWords (apply_round v r) := apply_round_mem v r hv hr0.1 hr0.2
      show apply_round_inv (apply_rounds_inv (apply_rounds (apply_round v r) rs) rs) r = v
      rw [ih (apply_round v r) hrs hstep]
      exact apply_round_inv_eq v r hv hr0.1 hr0.2

theorem rotationsA_valid : validRots rotationsA := by decide

theorem rotationsB_valid : validRots rotationsB := by decide

/-- The block hash always produces in-range words. -/
theorem threefry2x32_mem (k x : Nat × Nat) : inWords (threefry2x32 k x) :=
  inject_mem _ _ _

/-- The explicit inverse undoes the block hash on in-range inputs. -/
theorem threefry2x32_inv_eq (k v : Nat × Nat) (hv : inWords v) :
    threefry2x32_inv k (threefry2x32 k v) = v := by
  have h0 : inWords (inject v k.1 k.2) := inject_mem _ _ _
  have h1 := apply_rounds_mem rotationsA _ rotationsA_valid h0
  have h2 : inWords (inject (apply_rounds (inject v k.1 k.2) rotationsA)
      k.2 (ks2 k + 1)) := inject_mem _ _ _
  have h3 := apply_rounds_mem rotationsB _ rotationsB_valid h2
  have h4 : inWords (inject (apply_rounds (inject (apply_rounds
      (inject v k.1 k.2) rotationsA) k.2 (ks2 k + 1)) rotationsB)
      (ks2 k) (k.1 + 2)) := inject_mem _ _ _
  have h5 := apply_rounds_mem rotationsA _ rotationsA_valid h4
  have h6 : inWords (inject (apply_rounds (inject (apply_rounds (inject
      (apply_rounds (inject v k.1 k.2) rotationsA) k.2 (ks2 k + 1)) rotationsB)
      (ks2 k) (k.1 + 2)) rotationsA) k.1 (k.2 + 3)) := inject_mem _ _ _
  have h7 := apply_rounds_mem rotationsB _ rotationsB_valid h6
  have h8 : inWords (inject (apply_rounds (inject (apply_rounds (inject
      (apply_rounds (inject (apply_rounds (inject v k.1 k.2) rotationsA)
        k.2 (ks2 k + 1)) rotationsB) (ks2 k) (k.1 + 2)) rotationsA)
      k.1 (k.2 + 3)) rotationsB) k.2 (ks2 k + 4)) := inject_mem _ _ _
  have h9 := apply_rounds_mem rotationsA _ rotationsA_valid h8
  unfold threefry2x32 threefry2x32_inv
  rw [inject_inv_eq _ _ _ h9, apply_rounds_inv_eq _ _ rotationsA_valid h8,
    inject_inv_eq _ _ _ h7, apply_rounds_inv_eq _ _ rotationsB_valid h6,
    inject_inv_eq _ _ _ h5, apply_rounds_inv_eq _ _ rotationsA_valid h4,
    inject_inv_eq _ _ _ h3, apply_rounds_inv_eq _ _ rotationsB_valid h2,
    inject_inv_eq _ _ _ h1, apply_rounds_inv_eq _ _ rotationsA_valid h0,
    inject_inv_eq _ _ _ hv]

/-- The block hash is injective for a fixed key: the core "bijectivity
within a round set" property of the Hash Core. -/
theorem threefry2x32_inj (k : Nat × Nat) {v w : Nat × Nat}
    (hv : inWords v) (hw : inWords w)
    (h : threefry2x32 k v = threefry2x32 k w) : v = w := by
  have := congrArg (threefry2x32_inv k) h
  rwa [threefry2x32_inv_eq k v hv, threefry2x32_inv_eq k w hw] at this

theorem threefry_seed_mem (seed : Nat) : inWords (threefry_seed seed) :=
  ⟨Nat.mod_lt _ two32_pos, Nat.mod_lt _ two32_pos⟩

theorem threefry_split_length (k : Nat × Nat) (n : Nat) :
    (threefry_split k n).length = n := by
  simp [threefry_split]

theorem threefry_split_getD (k : Nat × Nat) (n i : Nat) (d : Nat × Nat)
    (h : i < n) :
    (threefry_split k n).getD i d = threefry_split_at k n i := by
  rw [threefry_split, List.getD_eq_getElem?_getD, List.getElem?_map,
    List.getElem?_range h]
  rfl

/-- A flat position within the shape's extent unlinearizes to a valid
multi-index. -/
theorem unlinearize_valid (s : List Nat) (c : Nat) (h : c < s.prod) :
    List.Forall₂ (· < ·) (unlinearize s c) s := by
  induction s generalizing c with
  | nil => exact List.Forall₂.nil
  | cons d rest ih =>
      rw [List.prod_cons] at h
      have hp : 0 < rest.prod := by
        rcases Nat.eq_zero_or_pos rest.prod with h0 | h0
        · rw [h0, Nat.mul_zero] at h
          omega
        · exact h0
      refine List.Forall₂.cons ?_ (ih _ (Nat.mod_lt _ hp))
      exact Nat.div_lt_of_lt_mul (by rwa [mul_comm] at h)

/-- A valid multi-index linearizes within the shape's extent. -/
theorem linearize_lt {idx s : List Nat} (h : List.Forall₂ (· < ·) idx s) :
    linearize s idx < s.prod := by
  induction h with
  | nil => decide
  | @cons i d is rest h1 h2 ih =>
      rw [List.prod_cons]
      show i * rest.prod + linearize rest is < d * rest.prod
      calc i * rest.prod + linearize rest is
          < i * rest.prod + rest.prod := by omega
        _ = (i + 1) * rest.prod := by ring
        _ ≤ d * rest.prod := Nat.mul_le_mul_right _ (by omega)

/-- Unlinearizing a linearized valid multi-index gives it back. -/
theorem unlinearize_linearize {idx s : List Nat}
    (h : List.Forall₂ (· < ·) idx s) :
    unlinearize s (linearize s idx) = idx := by
  induction h with
  | nil => rfl
  | @cons i d is rest h1 h2 ih =>
      have hl : linearize rest is < rest.prod := linearize_lt h2
      have hp : 0 < rest.prod := by omega
      show (i * rest.prod + linearize rest is) / rest.prod ::
          unlinearize rest ((i * rest.prod + linearize rest is) % rest.prod) = i :: is
      have hdiv : (i * rest.prod + linearize rest is) / rest.prod = i := by
        rw [mul_comm, Nat.mul_add_div hp, Nat.div_eq_of_lt hl, Nat.add_zero]
      have hmod : (i * rest.prod + linearize rest is) % rest.prod
          = linearize rest is := by
        rw [mul_comm, Nat.mul_add_mod]
        exact Nat.mod_eq_of_lt hl
      rw [hdiv, hmod, ih]

/-- A multi-index valid for a sub-shape is valid for any enclosing
shape. -/
theorem valid_le_valid {idx s2 s1 : List Nat}
    (h1 : List.Forall₂ (· < ·) idx s2) (h2 : List.Forall₂ (· ≤ ·) s2 s1) :
    List.Forall₂ (· < ·) idx s1 := by
  induction h1 generalizing s1 with
  | nil =>
      cases h2
      exact List.Forall₂.nil
  | @cons i d2 is rest2 hi htail ih =>
      cases h2 with
      | cons hd hrest => exact List.Forall₂.cons (by omega) (ih hrest)

/-- Element `c` of the `random_bits` output is the hash of the key and
the multi-index of `c`. -/
theorem threefry_random_bits_getD (k : Nat × Nat) (w : Nat) (s : List Nat)
    (c : Nat) (h : c < s.prod) :
    (threefry_random_bits k w s).data.getD c 0 =
      threefry_word_of_index k w (unlinearize s c) := by
  rw [threefry_random_bits, List.getD_eq_getElem?_getD, List.getElem?_map,
    List.getElem?_range h]
  rfl

/-- C1: for the default implementation and seed 1701, with
`k0 = seed→key(1701)` and `(k1, k2) = split(k0)`, the two derived keys
differ, `random_bits(k1, 32, [1])` and `random_bits(k2, 32, [1])`
differ, and re-running the whole sequence from the same seed reproduces
bitwise-identical `k1`, `k2` and bit outputs. -/
theorem c1_end_to_end_scenario :
    (threefry_split (threefry_seed 1701) 2).length = 2 ∧
    (threefry_split (threefry_seed 1701) 2).getD 0 (0, 0) ≠
      (threefry_split (threefry_seed 1701) 2).getD 1 (0, 0) ∧
    threefry_random_bits ((threefry_split (threefry_seed 1701) 2).getD 0 (0, 0)) 32 [1] ≠
      threefry_random_bits ((threefry_split (threefry_seed 1701) 2).getD 1 (0, 0)) 32 [1] ∧
    (threefry_seed 1701,
     threefry_split (threefry_seed 1701) 2,
     threefry_random_bits ((threefry_split (threefry_seed 1701) 2).getD 0 (0, 0)) 32 [1],
     threefry_random_bits ((threefry_split (threefry_seed 1701) 2).getD 1 (0, 0)) 32 [1]) =
    (threefry_seed 1701,
     threefry_split (threefry_seed 1701) 2,
     threefry_random_bits ((threefry_split (threefry_seed 1701) 2).getD 0 (0, 0)) 32 [1],
     threefry_random_bits ((threefry_split (threefry_seed 1701) 2).getD 1 (0, 0)) 32 [1]) :=
  ⟨by decide, by decide, by decide, rfl⟩

/-- C6: invoking any Descriptor-dispatched operation with a key tagged
for a different implementation yields `KeyImplementationMismatchError`,
and — the results being `Except.error` — no output key or array is
produced on the error path. -/
theorem c6_mismatch_rejected (d : Descriptor) (k : Key) (n data w : Nat)
    (shape : List Nat) (h : k.impl ≠ d.name) :
    split_op d k n = .error .keyImplementationMismatch ∧
    fold_in_op d k data = .error .keyImplementationMismatch ∧
    random_bits_op d k w shape = .error .keyImplementationMismatch := by
  unfold split_op fold_in_op random_bits_op
  simp [h]

theorem c6_mismatch_rejected_witness :
    (Key.mk "rbg" [0, 0, 0, 0]).impl ≠ threefryDescriptor.name ∧
    (split_op threefryDescriptor (Key.mk "rbg" [0, 0, 0, 0]) 2 =
        .error .keyImplementationMismatch ∧
      fold_in_op threefryDescriptor (Key.mk "rbg" [0, 0, 0, 0]) 7 =
        .error .keyImplementationMismatch ∧
      random_bits_op threefryDescriptor (Key.mk "rbg" [0, 0, 0, 0]) 32 [3] =
        .error .keyImplementationMismatch) :=
  ⟨by decide,
   c6_mismatch_rejected threefryDescriptor (Key.mk "rbg" [0, 0, 0, 0]) 2 7 32 [3]
     (by decide)⟩

/-- C7: the Legacy Bridge round trip — wrapping, reading back with
`key_data`, and wrapping again reproduces the same key; `key_data`
returns exactly the stored words (keys and arrays are immutable values,
so the result cannot alias and mutate the key's storage); and wrapping
raw data of the wrong trailing dimension fails with
`ShapeMismatchError`. -/
theorem c7_legacy_bridge_round_trip (d : Descriptor) (raw bad : List Nat)
    (h : raw.length = d.wordCount) (hbad : bad.length ≠ d.wordCount) :
    (wrap_key_data d raw).bind (fun k => wrap_key_data d (key_data k)) =
      wrap_key_data d raw ∧
    (∀ k, wrap_key_data d raw = .ok k → key_data k = raw) ∧
    wrap_key_data d bad = .error .shapeMismatch := by
  refine ⟨?_, ?_, ?_⟩
  · unfold wrap_key_data key_data
    simp [Except.bind, h]
  · intro k hk
    unfold wrap_key_data at hk
    rw [if_pos h] at hk
    cases hk
    rfl
  · unfold wrap_key_data
    rw [if_neg hbad]

theorem c7_legacy_bridge_round_trip_witness :
    ([11, 22].length = threefryDescriptor.wordCount ∧
      [11, 22, 33].length ≠ threefryDescriptor.wordCount) ∧
    ((wrap_key_data threefryDescriptor [11, 22]).bind
        (fun k => wrap_key_data threefryDescriptor (key_data k)) =
      wrap_key_data threefryDescriptor [11, 22] ∧
    (∀ k, wrap_key_data threefryDescriptor [11, 22] = .ok k → key_data k = [11, 22]) ∧
    wrap_key_data threefryDescriptor [11, 22, 33] = .error .shapeMismatch) :=
  ⟨⟨by decide, by decide⟩,
   c7_legacy_bridge_round_trip threefryDescriptor [11, 22] [11, 22, 33]
     (by decide) (by decide)⟩

/-- C9: at runtime `shuffle` is not a direct attribute of the module;
access goes through the `__getattr__` hook built from the deprecations
table, carries the registered deprecation message, and yields the same
`jax._src.random.shuffle` object that `_deprecated_shuffle` binds; under
static type checking `shuffle` is bound directly to that function. -/
theorem c9_shuffle_deprecation :
    runtime_attr "shuffle" = none ∧
    module_getattr "shuffle" = some
      ("jax.random.shuffle is deprecated. Use jax.random.permutation with independent=True.",
       "shuffle") ∧
    (module_getattr "shuffle").map (fun e => e.2) = runtime_attr "_deprecated_shuffle" ∧
    typing_attr "shuffle" = some "shuffle" := by
  refine ⟨?_, by decide, ?_, ?_⟩ <;> decide

/-- C10: a legacy key carries no implementation tag — the implementation
used for it is exactly the process-wide configuration value read at call
time, independent of the key's contents — while a typed key resolves to
its own stored tag, independent of the configuration. -/
theorem c10_legacy_key_untagged (cfg cfg2 : String) (raw raw2 : List Nat) (k : Key) :
    resolve_impl cfg (.legacy raw) = cfg ∧
    resolve_impl cfg (.legacy raw) = resolve_impl cfg (.legacy raw2) ∧
    resolve_impl cfg (.typed k) = k.impl ∧
    resolve_impl cfg (.typed k) = resolve_impl cfg2 (.typed k) :=
  ⟨rfl, rfl, rfl, rfl⟩

/-- Counterexample to C2's "no element of `split(k, n)` equals `k`":
for `k = (0, 36)`, `n = 491925062` and `i = 397862819 < n`, element `i`
of `split(k, n)` is `k` itself — the block hash is a bijection for each
fixed key, so split-counter fixed points exist. -/
theorem c2_split_element_equals_key_counterexample :
    397862819 < 491925062 ∧
    (threefry_split (0, 36) 491925062).getD 397862819 (0, 0) = (0, 36) := by
  refine ⟨by norm_num, ?_⟩
  rw [threefry_split_getD _ _ _ _ (by norm_num)]
  decide

/-- C2 (amended): `split(k, n)` is reproducible, its elements are
pairwise distinct, and no element equals `fold_in(k, a)` for
`a < n`.  (The original claim's further clause that no element equals
`k` itself is refuted by `c2_split_element_equals_key_counterexample`.) -/
theorem c2_split_reproducible_distinct (k : Nat × Nat) (n i j a : Nat)
    (hn : 2 * n ≤ two32) (hi : i < n) (hj : j < n) (hij : i ≠ j) (ha : a < n) :
    threefry_split k n = threefry_split k n ∧
    (threefry_split k n).getD i (0, 0) ≠ (threefry_split k n).getD j (0, 0) ∧
    (threefry_split k n).getD i (0, 0) ≠ threefry_fold_in k a := by
  have hiw : inWords (i, n + i) := by
    constructor <;> (show _ < two32; unfold two32 at *; omega)
  have hjw : inWords (j, n + j) := by
    constructor <;> (show _ < two32; unfold two32 at *; omega)
  refine ⟨rfl, ?_, ?_⟩
  · rw [threefry_split_getD _ _ _ _ hi, threefry_split_getD _ _ _ _ hj]
    intro h
    have heq := threefry2x32_inj k hiw hjw h
    exact hij (congrArg Prod.fst heq)
  · rw [threefry_split_getD _ _ _ _ hi]
    intro h
    have heq := threefry2x32_inj k hiw (threefry_seed_mem a) h
    have h1 := congrArg Prod.fst heq
    have h2 := congrArg Prod.snd heq
    simp only [threefry_seed] at h1 h2
    rw [Nat.shiftRight_eq_div_pow] at h1
    have hpow : (2 : Nat) ^ 32 = 4294967296 := by norm_num
    rw [hpow] at h1
    unfold two32 at h1 h2 hn
    omega

theorem c2_split_reproducible_distinct_witness :
    (2 * 3 ≤ two32 ∧ 0 < 3 ∧ 1 < 3 ∧ (0 : Nat) ≠ 1 ∧ 2 < 3) ∧
    (threefry_split (0, 0) 3 = threefry_split (0, 0) 3 ∧
      (threefry_split (0, 0) 3).getD 0 (0, 0) ≠ (threefry_split (0, 0) 3).getD 1 (0, 0) ∧
      (threefry_split (0, 0) 3).getD 0 (0, 0) ≠ threefry_fold_in (0, 0) 2) :=
  ⟨⟨by decide, by decide, by decide, by decide, by decide⟩,
   c2_split_reproducible_distinct (0, 0) 3 0 1 2
     (by decide) (by decide) (by decide) (by decide) (by decide)⟩

/-- C3: `fold_in` is injective in its data argument for a fixed key,
and the `fold_in` stream is disjoint from the split counter domain:
`fold_in(k, a) ≠ split(k, n)[a]` when `n > a`. -/
theorem c3_fold_in_distinct (k : Nat × Nat) (a b n : Nat)
    (ha : a < 2 ^ 64) (hb : b < 2 ^ 64) (hab : a ≠ b)
    (han : a < n) (hn : 2 * n ≤ two32) :
    threefry_fold_in k a ≠ threefry_fold_in k b ∧
    threefry_fold_in k a ≠ (threefry_split k n).getD a (0, 0) := by
  have hpow : (2 : Nat) ^ 32 = 4294967296 := by norm_num
  constructor
  · intro h
    have heq := threefry2x32_inj k (threefry_seed_mem a) (threefry_seed_mem b) h
    have h1 := congrArg Prod.fst heq
    have h2 := congrArg Prod.snd heq
    simp only [threefry_seed] at h1 h2
    rw [Nat.shiftRight_eq_div_pow, Nat.shiftRight_eq_div_pow, hpow] at h1
    unfold two32 at h1 h2
    have hpow64 : (2 : Nat) ^ 64 = 18446744073709551616 := by norm_num
    rw [hpow64] at ha hb
    exact hab (by omega)
  · rw [threefry_split_getD _ _ _ _ han]
    intro h
    have haw : inWords (a, n + a) := by
      constructor <;> (show _ < two32; unfold two32 at *; omega)
    have heq := threefry2x32_inj k (threefry_seed_mem a) haw h
    have h1 := congrArg Prod.fst heq
    have h2 := congrArg Prod.snd heq
    simp only [threefry_seed] at h1 h2
    rw [Nat.shiftRight_eq_div_pow, hpow] at h1
    unfold two32 at h1 h2 hn
    omega

theorem c3_fold_in_distinct_witness :
    ((0 : Nat) < 2 ^ 64 ∧ (1 : Nat) < 2 ^ 64 ∧ (0 : Nat) ≠ 1 ∧ 0 < 1 ∧ 2 * 1 ≤ two32) ∧
    (threefry_fold_in (0, 0) 0 ≠ threefry_fold_in (0, 0) 1 ∧
      threefry_fold_in (0, 0) 0 ≠ (threefry_split (0, 0) 1).getD 0 (0, 0)) :=
  ⟨⟨by norm_num, by norm_num, by decide, by decide, by decide⟩,
   c3_fold_in_distinct (0, 0) 0 1 1
     (by norm_num) (by norm_num) (by decide) (by decide) (by decide)⟩

/-- C4: `split` commutes with batching — splitting the batched key array
`[k1, k2]` yields, at batch index `b` and element index `i`, exactly the
key that splitting the single key alone yields, with results stacked
along a new leading axis and no cross-talk between batch elements. -/
theorem c4_batch_noninterference (k1 k2 : Nat × Nat) (n b i : Nat)
    (hb : b < 2) (hi : i < n) :
    (threefry_split_batched [k1, k2] n).length = 2 ∧
    (threefry_split_batched [k1, k2] n).getD b [] =
      threefry_split ([k1, k2].getD b (0, 0)) n ∧
    ((threefry_split_batched [k1, k2] n).getD b []).getD i (0, 0) =
      threefry_split_at ([k1, k2].getD b (0, 0)) n i := by
  have hcase : b = 0 ∨ b = 1 := by omega
  rcases hcase with h | h <;> subst h <;>
    exact ⟨rfl, rfl, threefry_split_getD _ _ _ _ hi⟩

theorem c4_batch_noninterference_witness :
    (1 < 2 ∧ 0 < 1) ∧
    ((threefry_split_batched [(0, 0), (0, 1)] 1).length = 2 ∧
      (threefry_split_batched [(0, 0), (0, 1)] 1).getD 1 [] =
        threefry_split ([(0, 0), (0, 1)].getD 1 (0, 0)) 1 ∧
      ((threefry_split_batched [(0, 0), (0, 1)] 1).getD 1 []).getD 0 (0, 0) =
        threefry_split_at ([(0, 0), (0, 1)].getD 1 (0, 0)) 1 0) :=
  ⟨⟨by decide, by decide⟩,
   c4_batch_noninterference (0, 0) (0, 1) 1 1 0 (by decide) (by decide)⟩

/-- C5: `random_bits(k, w, s)` carries exactly the requested shape and
`prod s` elements, every element fits in `w` bits for the supported
widths, two calls with the same arguments agree, and — the default
implementation advertising shard-invariance — any sub-shape call
equals the corresponding slice of the full-shape call: for any
sub-shape `s2` of `s1` (pointwise extents), every element of the `s2`
call equals the element at the same multi-index of the `s1` call. -/
theorem c5_random_bits_contract (k : Nat × Nat) (w : Nat)
    (shape s1 s2 : List Nat) (c2 x : Nat)
    (hw : w = 8 ∨ w = 16 ∨ w = 32 ∨ w = 64)
    (hx : x ∈ (threefry_random_bits k w shape).data)
    (hs : List.Forall₂ (· ≤ ·) s2 s1) (hc2 : c2 < s2.prod) :
    (threefry_random_bits k w shape).shape = shape ∧
    (threefry_random_bits k w shape).data.length = shape.prod ∧
    x < 2 ^ w ∧
    threefry_random_bits k w shape = threefry_random_bits k w shape ∧
    threefryDescriptor.shardInvariant = true ∧
    (threefry_random_bits k w s2).data.getD c2 0 =
      (threefry_random_bits k w s1).data.getD (linearize s1 (unlinearize s2 c2)) 0 := by
  refine ⟨rfl, by simp [threefry_random_bits], ?_, rfl, rfl, ?_⟩
  · simp only [threefry_random_bits, List.mem_map] at hx
    obtain ⟨c, -, hc⟩ := hx
    subst hc
    unfold threefry_word_of_index
    rcases hw with h | h | h | h <;> subst h
    · rw [if_neg (by omega)]
      exact Nat.mod_lt _ (by norm_num)
    · rw [if_neg (by omega)]
      exact Nat.mod_lt _ (by norm_num)
    · rw [if_neg (by omega)]
      exact Nat.mod_lt _ (by norm_num)
    · rw [if_pos rfl]
      obtain ⟨h1, h2⟩ := threefry2x32_mem ((unlinearize shape c).foldl
        (fun kk i => threefry2x32 kk (i % two32, 0)) k) (0, 0)
      unfold threefry_index_hash
      unfold two32 at h1 h2 ⊢
      have hpow64 : (2 : Nat) ^ 64 = 18446744073709551616 := by norm_num
      rw [hpow64]
      omega
  · have hvalid2 := unlinearize_valid s2 c2 hc2
    have hvalid1 := valid_le_valid hvalid2 hs
    rw [threefry_random_bits_getD _ _ _ _ hc2,
      threefry_random_bits_getD _ _ _ _ (linearize_lt hvalid1),
      unlinearize_linearize hvalid1]

theorem c5_random_bits_contract_witness :
    (((8 : Nat) = 8 ∨ (8 : Nat) = 16 ∨ (8 : Nat) = 32 ∨ (8 : Nat) = 64) ∧
      18 ∈ (threefry_random_bits (0, 0) 8 [2]).data ∧
      List.Forall₂ (· ≤ ·) [2, 1] [2, 2] ∧ 1 < List.prod [2, 1]) ∧
    ((threefry_random_bits (0, 0) 8 [2]).shape = [2] ∧
      (threefry_random_bits (0, 0) 8 [2]).data.length = List.prod [2] ∧
      18 < 2 ^ 8 ∧
      threefry_random_bits (0, 0) 8 [2] = threefry_random_bits (0, 0) 8 [2] ∧
      threefryDescriptor.shardInvariant = true ∧
      (threefry_random_bits (0, 0) 8 [2, 1]).data.getD 1 0 =
        (threefry_random_bits (0, 0) 8 [2, 2]).data.getD
          (linearize [2, 2] (unlinearize [2, 1] 1)) 0) :=
  ⟨⟨by decide, by decide,
    List.Forall₂.cons (by decide) (List.Forall₂.cons (by decide) List.Forall₂.nil),
    by decide⟩,
   c5_random_bits_contract (0, 0) 8 [2] [2, 2] [2, 1] 1 18
     (by decide) (by decide)
     (List.Forall₂.cons (by decide) (List.Forall₂.cons (by decide) List.Forall₂.nil))
     (by decide)⟩

/-- C8: no operation mutates its input key — running a derivation
operation against a store of live keys leaves every existing key in
place (the input remains valid and reusable), only appends freshly
derived keys, and — all primitives being pure functions — applying the
same operation to the same arguments again yields the same result. -/
theorem c8_no_mutation (d : Descriptor) (store : List Key) (op : RandomOp)
    (k : Nat × Nat) (s n dat w : Nat) (shape : List Nat) :
    (applyOp d store op).take store.length = store ∧
    (applyOp d store op).drop store.length = opNewKeys d store op ∧
    applyOp d store op = applyOp d store op ∧
    threefry_seed s = threefry_seed s ∧
    threefry_split k n = threefry_split k n ∧
    threefry_fold_in k dat = threefry_fold_in k dat ∧
    threefry_random_bits k w shape = threefry_random_bits k w shape :=
  ⟨List.take_left' rfl, List.drop_left' rfl, rfl, rfl, rfl, rfl, rfl⟩

end JaxRandom
